import Mathlib

/-!
Verification of the ferris-fetcher backend (src/backend/src/engine.rs and
src/backend/src/main.rs).

This file gives a shallow embedding of the parts of the program the
specified properties talk about: the chunk planner, the engine's probe
decision and request set, the engine's task-store updates (start and
finalize), the progress-reporter tick, and the control plane
(pause/resume/delete endpoints together with the cancellation-handle
registry), plus a small event-based transition system tying them together.
Machine integers (u64) are modeled as Nat with explicit reduction modulo
2^64 where the source can overflow; Uuid task identifiers are modeled as
freshly allocated naturals; tokio task handles are modeled by run
identifiers in a set of live engine runs.
-/

namespace FerrisFetcher

/-- 2^64.  u64 arithmetic of the source is modeled as Nat, with explicit
reduction modulo this constant at the operations that can wrap. -/
def U64MOD : Nat := 18446744073709551616

/-- u64 wrapping computation of `a - 1` (used by engine.rs lines 126 and
128; in Rust this underflows when `a = 0`). -/
def wrapSub1 (a : Nat) : Nat := (a + (U64MOD - 1)) % U64MOD

/-- The chunk planner, engine.rs lines 118-129: `chunk_size =
content_length / chunk_count`; chunk `i` starts at `i * chunk_size` and
ends at `(i + 1) * chunk_size - 1`, except the last chunk which ends at
`content_length - 1`.  The source fixes `chunk_count = 8`; the planner is
embedded with the count as a parameter exactly as the per-`i` formulas are
written. -/
def plan (content_length chunk_count : Nat) : List (Nat × Nat) :=
  let chunk_size := content_length / chunk_count
  (List.range chunk_count).map (fun i =>
    (i * chunk_size % U64MOD,
     if i = chunk_count - 1 then wrapSub1 content_length
     else wrapSub1 ((i + 1) * chunk_size % U64MOD)))

/-- engine.rs lines 31-37. -/
inductive DownloadStatus where
  | Pending
  | Downloading
  | Paused
  | Completed
  | Error (reason : String)
deriving DecidableEq

/-- engine.rs lines 20-28.  The Uuid `id` string is modeled as a freshly
allocated Nat. -/
structure DownloadTask where
  id : Nat
  url : String
  filename : String
  total_size : Option Nat
  downloaded_bytes : Nat
  status : DownloadStatus
  save_path : String
deriving DecidableEq

/-- Rust's `str::split(sep)`: splits at every occurrence of the separator,
keeping empty pieces; always returns at least one piece. -/
def splitChar (sep : Char) : List Char → List (List Char)
  | [] => [[]]
  | c :: rest =>
    let r := splitChar sep rest
    if c = sep then [] :: r
    else
      match r with
      | [] => [[c]]
      | piece :: ps => (c :: piece) :: ps

/-- engine.rs line 49: `url.split('/').last().unwrap_or("download.bin")`.
(`split` always yields at least one piece, so the fallback is only reached
on the impossible empty split result.) -/
def urlFilename (url : String) : String :=
  String.mk ((splitChar '/' url.data).getLastD "download.bin".data)

/-- Modelled from the spec: `get_download_dir` (engine.rs lines 9-17)
resolves the user's OS download directory and appends the fixed
application subfolder "FF"; the OS lookup is outside the embedding, so the
directory is a fixed abstract path. -/
def ff_dir : String := "Downloads/FF"

/-- `tasks.iter_mut().find(|t| p t)` followed by a mutation of the found
record: updates the first element satisfying `p`, leaves the rest alone. -/
def updateFirst {α : Type} (p : α → Bool) (f : α → α) : List α → List α
  | [] => []
  | x :: xs => if p x then f x :: xs else x :: updateFirst p f xs

/-- One tick of the progress reporter, engine.rs lines 98-113: look the
task up by id; if found and still `Downloading`, copy the shared counter
into `downloaded_bytes` and keep looping; if found with any other status,
`break`; if not found (record deleted), the `if let` simply falls through
and the loop continues.  Returns the updated store and whether the loop
continues. -/
def reporterTick (tasks : List DownloadTask) (id : Nat) (current_bytes : Nat) :
    List DownloadTask × Bool :=
  match tasks.find? (fun t => t.id == id) with
  | some t =>
    if t.status = DownloadStatus.Downloading then
      (updateFirst (fun t => t.id == id)
        (fun t => { t with downloaded_bytes := current_bytes }) tasks, true)
    else
      (tasks, false)
  | none => (tasks, true)

/-- engine.rs lines 167-169 and 185-192: the engine joins its workers,
discarding every join result (`let _ = h.await;`), and then
unconditionally marks the task `Completed` with `downloaded_bytes =
content_length`.  `worker_results` carries each worker's outcome; note the
result is independent of them. -/
def joinAndFinalize (worker_results : List (Except String Unit))
    (tasks : List DownloadTask) (task_id : Nat) (content_length : Nat) :
    List DownloadTask :=
  let _joined := worker_results.map (fun _ => ())
  updateFirst (fun t => t.id == task_id)
    (fun t => { t with status := DownloadStatus.Completed,
                       downloaded_bytes := content_length }) tasks

/-- engine.rs line 115: the multi-stream path is taken iff
`accepts_ranges && content_length > 0`. -/
def usesMultiStream (content_length : Nat) (accepts_ranges : Bool) : Bool :=
  accepts_ranges && decide (0 < content_length)

/-- An HTTP GET issued by the engine: the url and the optional
`Range: bytes=start-end` header. -/
structure HttpRequest where
  url : String
  range : Option (Nat × Nat)
deriving DecidableEq

/-- The body requests one engine run issues (engine.rs lines 115-180): on
the multi-stream path, one ranged GET per planned chunk (line 143); on the
single-stream fallback, a single GET with no Range header (line 173). -/
def engineRequests (url : String) (content_length : Nat)
    (accepts_ranges : Bool) : List HttpRequest :=
  if usesMultiStream content_length accepts_ranges then
    (plan content_length 8).map (fun r => { url := url, range := some r })
  else
    [{ url := url, range := none }]

/-- Registry insertion, `registry.insert(id, handle)` (main.rs lines 111
and 216): DashMap semantics, replacing any previous entry for the key. -/
def regInsert (registry : List (Nat × Nat)) (id rid : Nat) :
    List (Nat × Nat) :=
  registry.filter (fun p => p.1 != id) ++ [(id, rid)]

/-- The pause endpoint, main.rs lines 68-83: remove the registry entry and
abort its handle if present, then set the first record with this id to
`Paused` (unconditionally on its current status), and answer "Paused"
whether or not anything was found.  Returns (new registry, aborted run if
any, new store, response body). -/
def pause_download (id : Nat) (registry : List (Nat × Nat))
    (tasks : List DownloadTask) :
    List (Nat × Nat) × Option Nat × List DownloadTask × String :=
  let aborted := (registry.find? (fun p => p.1 == id)).map (fun p => p.2)
  let registry1 := registry.filter (fun p => p.1 != id)
  let tasks1 := updateFirst (fun t => t.id == id)
    (fun t => { t with status := DownloadStatus.Paused }) tasks
  (registry1, aborted, tasks1, "Paused")

/-- `registry.clear()` on the DashMap: drops all entries without aborting
any handle. -/
def dashClear (registry : List (Nat × Nat)) : List (Nat × Nat) := []

/-- The delete-all endpoint, main.rs lines 140-156, in source order: first
`registry.clear()`, then the abort loop `for entry in registry.iter()`
(which therefore iterates the already-cleared map), then `registry.clear()`
again, then `tasks.clear()`.  Returns (final registry, final store, run
ids actually aborted by the loop, response body). -/
def delete_all (registry : List (Nat × Nat)) (tasks : List DownloadTask) :
    List (Nat × Nat) × List DownloadTask × List Nat × String :=
  let registry1 := dashClear registry
  let aborted := registry1.map (fun p => p.2)
  let registry2 := dashClear registry1
  let tasks1 : List DownloadTask := []
  (registry2, tasks1, aborted, "Nuked")

/-- One engine run spawned by `tokio::spawn(start_multistream_download …)`
(main.rs lines 106-108 and 211-213): its model run id, the task it serves,
the url captured at spawn time, and whether it has executed its
state-start update yet. -/
structure EngineRun where
  run : Nat
  taskId : Nat
  url : String
  started : Bool
deriving DecidableEq

/-- Whole-system state: the task store, the control registry (id ↦ run id
of the registered handle), the engine runs currently alive, and fresh-name
counters for task ids (Uuid::new_v4) and run ids. -/
structure SysState where
  tasks : List DownloadTask
  registry : List (Nat × Nat)
  live : List EngineRun
  nextId : Nat
  nextRun : Nat
deriving DecidableEq

/-- The atomic system events: the five endpoints of main.rs, plus the
observable internal steps of one engine run (its state-start update,
engine.rs lines 77-87; its finalize, lines 185-192; an early error return
before streaming, lines 44-75) and one reporter tick. -/
inductive Event where
  | submit (url : String)
  | pause (id : Nat)
  | resume (id : Nat)
  | deleteSingle (id : Nat)
  | deleteCompleted
  | deleteAll
  | engineStart (rid : Nat)
  | engineFinish (rid : Nat)
  | engineAbortEarly (rid : Nat)
  | reporterTick (id : Nat) (counter : Nat)

/-- The record `add_download` pushes (main.rs lines 190-199): a fresh id,
the submitted url, the filename placeholder, unknown size, zero progress,
`Pending`, empty save path. -/
def submitTask (id : Nat) (url : String) : DownloadTask :=
  { id := id, url := url, filename := "Pending...", total_size := none,
    downloaded_bytes := 0, status := DownloadStatus.Pending,
    save_path := "" }

/-- A freshly spawned engine run for a task: not yet past its state-start
update. -/
def spawnRun (rid taskId : Nat) (url : String) : EngineRun :=
  { run := rid, taskId := taskId, url := url, started := false }

/-- One step of the system.  `cl url` is the content length the server
reports for `url` on the HEAD probe (fixed per url).

* `submit` (main.rs 185-219): push a fresh `Pending` record with filename
  placeholder "Pending...", spawn a run, register its handle.
* `pause` (main.rs 68-83): remove-and-abort the registered handle, set the
  record `Paused`.
* `resume` (main.rs 86-114): if the record exists (no status check in the
  source), set it `Pending`, spawn a new run for the same id and url, and
  register it — replacing, without aborting, any previous handle.
* `deleteSingle` (main.rs 117-130): remove-and-abort the handle, drop the
  record.
* `deleteCompleted` (main.rs 133-137): drop `Completed` records; the
  registry is not touched.
* `deleteAll` (main.rs 140-156): the registry is cleared before the abort
  loop iterates it, so no run is aborted; the store is cleared.
* `engineStart rid` (engine.rs 77-87): the run's state update after the
  probe: status `Downloading`, `total_size = Some content_length`,
  `save_path` set, `downloaded_bytes` reset to 0.
* `engineFinish rid` (engine.rs 185-194): final update: `Completed`,
  `downloaded_bytes = content_length`; the run ends.  The registry is not
  touched (the engine has no access to it).
* `engineAbortEarly rid`: the run ends with an early `Err` return before
  its streaming phase, touching nothing.
* `reporterTick`: one reporter tick against the store. -/
def applyEvent (cl : String → Nat) (s : SysState) : Event → SysState
  | Event.submit url =>
    { tasks := s.tasks ++ [submitTask s.nextId url],
      registry := regInsert s.registry s.nextId s.nextRun,
      live := s.live ++ [spawnRun s.nextRun s.nextId url],
      nextId := s.nextId + 1,
      nextRun := s.nextRun + 1 }
  | Event.pause id =>
    { s with
      registry := s.registry.filter (fun p => p.1 != id),
      live := (match s.registry.find? (fun p => p.1 == id) with
        | some p => s.live.filter (fun r => r.run != p.2)
        | none => s.live),
      tasks := updateFirst (fun t => t.id == id)
        (fun t => { t with status := DownloadStatus.Paused }) s.tasks }
  | Event.resume id =>
    match s.tasks.find? (fun t => t.id == id) with
    | some t =>
      { s with
        tasks := updateFirst (fun t2 => t2.id == id)
          (fun t2 => { t2 with status := DownloadStatus.Pending }) s.tasks,
        registry := regInsert s.registry id s.nextRun,
        live := s.live ++ [spawnRun s.nextRun id t.url],
        nextRun := s.nextRun + 1 }
    | none => s
  | Event.deleteSingle id =>
    { s with
      registry := s.registry.filter (fun p => p.1 != id),
      live := (match s.registry.find? (fun p => p.1 == id) with
        | some p => s.live.filter (fun r => r.run != p.2)
        | none => s.live),
      tasks := s.tasks.filter (fun t => t.id != id) }
  | Event.deleteCompleted =>
    { s with
      tasks := s.tasks.filter (fun t => decide (t.status ≠ DownloadStatus.Completed)) }
  | Event.deleteAll =>
    { s with registry := [], tasks := [] }
  | Event.engineStart rid =>
    match s.live.find? (fun r => r.run == rid) with
    | some r =>
      if r.started then s
      else
        { s with
          live := updateFirst (fun r2 => r2.run == rid)
            (fun r2 => { r2 with started := true }) s.live,
          tasks := updateFirst (fun t => t.id == r.taskId)
            (fun t => { t with status := DownloadStatus.Downloading,
                               total_size := some (cl r.url),
                               downloaded_bytes := 0,
                               save_path := ff_dir ++ "/" ++ urlFilename r.url })
            s.tasks }
    | none => s
  | Event.engineFinish rid =>
    match s.live.find? (fun r => r.run == rid) with
    | some r =>
      if r.started then
        { s with
          live := s.live.filter (fun r2 => r2.run != rid),
          tasks := updateFirst (fun t => t.id == r.taskId)
            (fun t => { t with status := DownloadStatus.Completed,
                               downloaded_bytes := cl r.url }) s.tasks }
      else s
    | none => s
  | Event.engineAbortEarly rid =>
    { s with live := s.live.filter (fun r2 => r2.run != rid) }
  | Event.reporterTick id counter =>
    { s with tasks := (reporterTick s.tasks id counter).1 }

/-- The initial system state.  History persistence is out of scope
(spec §1), so the store starts empty. -/
def initState : SysState :=
  { tasks := [], registry := [], live := [], nextId := 0, nextRun := 0 }

/-- Run a list of events from a given state. -/
def runFrom (cl : String → Nat) (s : SysState) (es : List Event) : SysState :=
  es.foldl (applyEvent cl) s

/-- Run a list of events from the initial state. -/
def run (cl : String → Nat) (es : List Event) : SysState :=
  runFrom cl initState es

/-- A constant content-length function used for concrete executions. -/
def clConst : String → Nat := fun _ => 100

/-- The planner contract of claim C1, for `plan total n`: `n` ranges; the
range formula with base chunk size `total / n` and the final range ending
at `total - 1`; contiguity; ordered pairwise disjointness; the union of the
inclusive ranges being exactly `[0, total)`; the first range starting at
byte 0. -/
def PlanSpec (total n : Nat) : Prop :=
  (plan total n).length = n
  ∧ (∀ i, i < n → (plan total n).getD i (0, 0)
      = (i * (total / n),
         if i = n - 1 then total - 1 else (i + 1) * (total / n) - 1))
  ∧ (∀ i, i + 1 < n →
      ((plan total n).getD i (0, 0)).2 + 1
        = ((plan total n).getD (i + 1) (0, 0)).1)
  ∧ (∀ i j, i < j → j < n →
      ((plan total n).getD i (0, 0)).2 < ((plan total n).getD j (0, 0)).1)
  ∧ (∀ k, (∃ q ∈ plan total n, q.1 ≤ k ∧ k ≤ q.2) ↔ k < total)
  ∧ ((plan total n).getD 0 (0, 0)).1 = 0
  ∧ ((plan total n).getD (n - 1) (0, 0)).2 = total - 1

/-- The inductive invariant of the system model: task ids and live runs'
task ids are below the freshness counter; a live run's captured url agrees
with its record's; a started run's record has its probed size recorded;
a `Completed` record is full; ids are pairwise distinct. -/
structure Inv (cl : String → Nat) (s : SysState) : Prop where
  ids_lt : ∀ t ∈ s.tasks, t.id < s.nextId
  runs_lt : ∀ r ∈ s.live, r.taskId < s.nextId
  run_url : ∀ r ∈ s.live, ∀ t ∈ s.tasks, t.id = r.taskId → t.url = r.url
  started_ts : ∀ r ∈ s.live, r.started = true → ∀ t ∈ s.tasks,
    t.id = r.taskId → t.total_size = some (cl t.url)
  completed_full : ∀ t ∈ s.tasks, t.status = DownloadStatus.Completed →
    t.total_size = some (cl t.url) ∧ t.downloaded_bytes = cl t.url
  nodup : (s.tasks.map (fun t => t.id)).Nodup

/-- The store entry before the join step in the C2 scenario: the task is
mid download. -/
def taskC2 : DownloadTask :=
  { id := 1, url := "u", filename := "Pending...", total_size := some 100,
    downloaded_bytes := 40, status := DownloadStatus.Downloading,
    save_path := "p" }

/-- A store entry for the C3 scenario. -/
def taskC3 : DownloadTask :=
  { id := 5, url := "u", filename := "f", total_size := some 10,
    downloaded_bytes := 3, status := DownloadStatus.Downloading,
    save_path := "p" }

/-- The record produced by a full successful run of the C6 witness
trace. -/
def taskC6 : DownloadTask :=
  { id := 0, url := "u", filename := "Pending...", total_size := some 100,
    downloaded_bytes := 100, status := DownloadStatus.Completed,
    save_path := "Downloads/FF/u" }

/-- The record for the reporter-tick witness: present and downloading. -/
def taskC9 : DownloadTask :=
  { id := 3, url := "u", filename := "n", total_size := some 9,
    downloaded_bytes := 2, status := DownloadStatus.Downloading,
    save_path := "p" }

/-- The record for the pause witness: already `Completed`, with a stale
registry entry. -/
def taskC10 : DownloadTask :=
  { id := 7, url := "u", filename := "n", total_size := some 5,
    downloaded_bytes := 5, status := DownloadStatus.Completed,
    save_path := "p" }

/-! ### Helper lemmas about `updateFirst` -/

lemma length_updateFirst {α : Type} (p : α → Bool) (f : α → α) :
    ∀ l : List α, (updateFirst p f l).length = l.length := by
  intro l
  induction l with
  | nil => rfl
  | cons x xs ih =>
    simp only [updateFirst]
    split <;> simp [ih]

lemma mem_updateFirst {α : Type} {p : α → Bool} {f : α → α} :
    ∀ {l : List α} {x : α}, x ∈ updateFirst p f l →
      x ∈ l ∨ ∃ y, l.find? p = some y ∧ x = f y := by
  intro l
  induction l with
  | nil => intro x hx; exact absurd hx (List.not_mem_nil x)
  | cons z zs ih =>
    intro x hx
    simp only [updateFirst] at hx
    by_cases hz : p z
    · rw [if_pos hz] at hx
      rcases List.mem_cons.mp hx with h | h
      · exact Or.inr ⟨z, by simp [List.find?_cons, hz], h⟩
      · exact Or.inl (List.mem_cons_of_mem z h)
    · rw [if_neg hz] at hx
      rcases List.mem_cons.mp hx with h | h
      · exact Or.inl (h ▸ List.mem_cons_self z zs)
      · rcases ih h with h' | ⟨y, hy, hxy⟩
        · exact Or.inl (List.mem_cons_of_mem z h')
        · refine Or.inr ⟨y, ?_, hxy⟩
          simp [List.find?_cons, hz, hy]

lemma mem_updateFirst_of_not {α : Type} {p : α → Bool} {f : α → α} {x : α}
    (hp : p x = false) :
    ∀ {l : List α}, x ∈ l → x ∈ updateFirst p f l := by
  intro l
  induction l with
  | nil => intro hx; exact absurd hx (List.not_mem_nil x)
  | cons z zs ih =>
    intro hx
    simp only [updateFirst]
    rcases List.mem_cons.mp hx with h | h
    · subst h
      rw [if_neg (by simp [hp])]
      exact List.mem_cons_self _ _
    · split
      · exact List.mem_cons_of_mem _ h
      · exact List.mem_cons_of_mem _ (ih h)

lemma find?_updateFirst {α : Type} (p : α → Bool) (f : α → α)
    (hf : ∀ x, p (f x) = p x) :
    ∀ l : List α, (updateFirst p f l).find? p = (l.find? p).map f := by
  intro l
  induction l with
  | nil => rfl
  | cons z zs ih =>
    simp only [updateFirst]
    by_cases hz : p z
    · rw [if_pos hz]
      simp [List.find?_cons, hf, hz]
    · rw [if_neg hz]
      simp [List.find?_cons, hz, ih]

lemma updateFirst_of_find?_none {α : Type} {p : α → Bool} (f : α → α) :
    ∀ {l : List α}, l.find? p = none → updateFirst p f l = l := by
  intro l
  induction l with
  | nil => intro _; rfl
  | cons z zs ih =>
    intro h
    rw [List.find?_cons] at h
    by_cases hz : p z
    · simp [hz] at h
    · simp only [updateFirst, if_neg hz]
      simp only [hz, Bool.false_eq_true, if_false] at h
      rw [ih h]

lemma map_updateFirst {α β : Type} (p : α → Bool) (f : α → α) (g : α → β)
    (hf : ∀ x, g (f x) = g x) :
    ∀ l : List α, (updateFirst p f l).map g = l.map g := by
  intro l
  induction l with
  | nil => rfl
  | cons z zs ih =>
    simp only [updateFirst]
    split <;> simp [hf, ih]

/-- With pairwise-distinct keys, updating the first record with a given key
is the same as mapping a conditional update over the whole list. -/
lemma updateFirst_eq_map {α : Type} (key : α → Nat) (k : Nat) (f : α → α) :
    ∀ l : List α, (l.map key).Nodup →
      updateFirst (fun x => key x == k) f l
        = l.map (fun x => if key x = k then f x else x) := by
  intro l
  induction l with
  | nil => intro _; rfl
  | cons z zs ih =>
    intro hnd
    simp only [List.map_cons, List.nodup_cons, List.mem_map] at hnd
    obtain ⟨hz, hnd'⟩ := hnd
    by_cases hk : key z = k
    · simp only [updateFirst, hk, beq_self_eq_true, if_true, List.map_cons,
        if_pos hk]
      have hall : ∀ y ∈ zs, (if key y = k then f y else y) = y := by
        intro y hy
        have : key y ≠ k := fun h => hz ⟨y, hy, h ▸ hk ▸ rfl⟩
        simp [this]
      rw [List.map_congr_left hall, List.map_id']
    · simp only [updateFirst, List.map_cons]
      rw [if_neg (show ¬ ((key z == k) = true) by simpa using hk),
        if_neg hk, ih hnd']

/-- With pairwise-distinct keys, two members with the same key are equal. -/
lemma key_unique {α : Type} {key : α → Nat} :
    ∀ {l : List α}, (l.map key).Nodup →
      ∀ {x y : α}, x ∈ l → y ∈ l → key x = key y → x = y := by
  intro l
  induction l with
  | nil => intro _ x y hx; exact absurd hx (List.not_mem_nil x)
  | cons z zs ih =>
    intro hnd x y hx hy hkey
    simp only [List.map_cons, List.nodup_cons, List.mem_map] at hnd
    obtain ⟨hz, hnd'⟩ := hnd
    rcases List.mem_cons.mp hx with hx | hx <;>
      rcases List.mem_cons.mp hy with hy | hy
    · rw [hx, hy]
    · exact absurd ⟨y, hy, (hx ▸ hkey).symm⟩ hz
    · exact absurd ⟨x, hx, hy ▸ hkey⟩ hz
    · exact ih hnd' hx hy hkey

lemma find?_append_none {α : Type} {p : α → Bool} {l₁ : List α}
    (h : l₁.find? p = none) (l₂ : List α) :
    (l₁ ++ l₂).find? p = l₂.find? p := by
  induction l₁ with
  | nil => rfl
  | cons z zs ih =>
    rw [List.find?_cons] at h
    by_cases hz : p z
    · simp [hz] at h
    · simp only [hz, Bool.false_eq_true, if_false] at h
      simp only [List.cons_append, List.find?_cons, hz, Bool.false_eq_true,
        if_false]
      exact ih h

/-! ### The chunk planner (claim C1) -/

lemma wrapSub1_eq {a : Nat} (h0 : 0 < a) (h1 : a < U64MOD) :
    wrapSub1 a = a - 1 := by
  unfold wrapSub1 U64MOD at *
  omega

lemma plan_length (total n : Nat) : (plan total n).length = n := by
  simp [plan]

lemma plan_getD {total n i : Nat} (hi : i < n) :
    (plan total n).getD i (0, 0)
      = (i * (total / n) % U64MOD,
         if i = n - 1 then wrapSub1 total
         else wrapSub1 ((i + 1) * (total / n) % U64MOD)) := by
  unfold plan
  rw [List.getD_eq_getElem?_getD]
  simp [hi]

lemma plan_mem {total n : Nat} {q : Nat × Nat} :
    q ∈ plan total n ↔ ∃ i, i < n ∧
      q = (i * (total / n) % U64MOD,
           if i = n - 1 then wrapSub1 total
           else wrapSub1 ((i + 1) * (total / n) % U64MOD)) := by
  simp only [plan, List.mem_map, List.mem_range]
  constructor
  · rintro ⟨i, hi, rfl⟩; exact ⟨i, hi, rfl⟩
  · rintro ⟨i, hi, rfl⟩; exact ⟨i, hi, rfl⟩

section PlannerArith

variable {total n : Nat}

lemma cs_pos (h1 : 1 ≤ n) (h2 : n ≤ total) : 1 ≤ total / n :=
  (Nat.one_le_div_iff h1).mpr h2

lemma mul_cs_le (h2 : n ≤ total) {i : Nat} (hi : i ≤ n) :
    i * (total / n) ≤ total := by
  calc i * (total / n) ≤ n * (total / n) :=
        Nat.mul_le_mul_right _ hi
    _ = total / n * n := Nat.mul_comm _ _
    _ ≤ total := Nat.div_mul_le_self total n

lemma start_lt (h1 : 1 ≤ n) (h2 : n ≤ total) {i : Nat} (hi : i < n) :
    i * (total / n) < total := by
  have hcs := cs_pos h1 h2
  have h5 : (i + 1) * (total / n) ≤ total := mul_cs_le h2 hi
  have h6 : (i + 1) * (total / n) = i * (total / n) + total / n := by ring
  calc i * (total / n) < i * (total / n) + total / n := by
        have := hcs; omega
    _ = (i + 1) * (total / n) := h6.symm
    _ ≤ total := h5

/-- Under the amended hypotheses the u64 wraparound disappears and the
planned ranges take their intended closed form. -/
lemma plan_getD_closed (h1 : 1 ≤ n) (h2 : n ≤ total) (h3 : total < U64MOD)
    {i : Nat} (hi : i < n) :
    (plan total n).getD i (0, 0)
      = (i * (total / n),
         if i = n - 1 then total - 1
         else (i + 1) * (total / n) - 1) := by
  have hcs := cs_pos h1 h2
  have hstart : i * (total / n) < total := start_lt h1 h2 hi
  have hstartmod : i * (total / n) % U64MOD = i * (total / n) :=
    Nat.mod_eq_of_lt (lt_trans hstart h3)
  rw [plan_getD hi, hstartmod]
  by_cases hlast : i = n - 1
  · rw [if_pos hlast, if_pos hlast, wrapSub1_eq (by omega) h3]
  · have hend : (i + 1) * (total / n) ≤ total := mul_cs_le h2 hi
    have hendpos : 0 < (i + 1) * (total / n) :=
      Nat.mul_pos (Nat.succ_pos i) hcs
    have hendmod : (i + 1) * (total / n) % U64MOD = (i + 1) * (total / n) :=
      Nat.mod_eq_of_lt (lt_of_le_of_lt hend h3)
    rw [if_neg hlast, if_neg hlast, hendmod,
      wrapSub1_eq hendpos (lt_of_le_of_lt hend h3)]

end PlannerArith

/-- Claim C1 (amended): for u64 inputs with `chunk_count ≥ 1` and
`total_size ≥ chunk_count`, the planner produces an ordered sequence of
inclusive byte ranges that are contiguous, pairwise disjoint, and whose
union is exactly `[0, total_size)`, with base chunk size
`total_size / chunk_count` and the final chunk ending at `total_size - 1`.
(The claim's original precondition `total_size > 0` is not enough: for
`0 < total_size < chunk_count` the source's end computation
`(i + 1) * chunk_size - 1` underflows u64, see `planner_claim_cex`.) -/
theorem plan_partition (total n : Nat) (h1 : 1 ≤ n) (h2 : n ≤ total)
    (h3 : total < U64MOD) : PlanSpec total n := by
  have hcs := cs_pos h1 h2
  have hform : ∀ i, i < n →
      ((i * (total / n) % U64MOD,
        if i = n - 1 then wrapSub1 total
        else wrapSub1 ((i + 1) * (total / n) % U64MOD)) : Nat × Nat)
      = (i * (total / n),
         if i = n - 1 then total - 1 else (i + 1) * (total / n) - 1) :=
    fun i hi => (plan_getD hi).symm.trans (plan_getD_closed h1 h2 h3 hi)
  refine ⟨plan_length total n, fun i hi => plan_getD_closed h1 h2 h3 hi,
    ?_, ?_, ?_, ?_, ?_⟩
  · intro i hi1
    have hi : i < n := Nat.lt_of_succ_lt hi1
    rw [plan_getD_closed h1 h2 h3 hi, plan_getD_closed h1 h2 h3 hi1]
    have hne : i ≠ n - 1 := by omega
    simp only [if_neg hne]
    exact Nat.sub_add_cancel (Nat.mul_pos (Nat.succ_pos i) hcs)
  · intro i j hij hj
    have hi : i < n := lt_trans hij hj
    rw [plan_getD_closed h1 h2 h3 hi, plan_getD_closed h1 h2 h3 hj]
    have hne : i ≠ n - 1 := by omega
    simp only [if_neg hne]
    have h4 : (i + 1) * (total / n) ≤ j * (total / n) :=
      Nat.mul_le_mul_right _ hij
    have h5 : 0 < (i + 1) * (total / n) :=
      Nat.mul_pos (Nat.succ_pos i) hcs
    exact lt_of_lt_of_le (Nat.sub_lt h5 Nat.one_pos) h4
  · intro k
    constructor
    · rintro ⟨q, hq, hq1, hq2⟩
      rw [plan_mem] at hq
      obtain ⟨i, hi, rfl⟩ := hq
      rw [hform i hi] at hq1 hq2
      simp only at hq1 hq2
      by_cases hlast : i = n - 1
      · rw [if_pos hlast] at hq2
        omega
      · rw [if_neg hlast] at hq2
        have h5 : (i + 1) * (total / n) ≤ total := mul_cs_le h2 hi
        have h6 : 0 < (i + 1) * (total / n) :=
          Nat.mul_pos (Nat.succ_pos i) hcs
        exact lt_of_le_of_lt hq2
          (lt_of_lt_of_le (Nat.sub_lt h6 Nat.one_pos) h5)
    · intro hk
      by_cases hc : k / (total / n) < n - 1
      · have hi : k / (total / n) < n := by omega
        refine ⟨_, plan_mem.mpr ⟨k / (total / n), hi, rfl⟩, ?_⟩
        rw [hform _ hi]
        have hne : k / (total / n) ≠ n - 1 := by omega
        rw [if_neg hne]
        refine ⟨Nat.div_mul_le_self k _, ?_⟩
        have hkey : k < (k / (total / n) + 1) * (total / n) := by
          have hd := Nat.div_add_mod k (total / n)
          have hm : k % (total / n) < total / n := Nat.mod_lt _ hcs
          calc k = (total / n) * (k / (total / n)) + k % (total / n) :=
                hd.symm
            _ < (total / n) * (k / (total / n)) + total / n :=
                Nat.add_lt_add_left hm _
            _ = (k / (total / n) + 1) * (total / n) := by ring
        exact Nat.le_pred_of_lt hkey
      · have hi : n - 1 < n := by omega
        refine ⟨_, plan_mem.mpr ⟨n - 1, hi, rfl⟩, ?_, ?_⟩
        · rw [hform _ hi]
          dsimp only
          calc (n - 1) * (total / n) ≤ k / (total / n) * (total / n) :=
                Nat.mul_le_mul_right _ (by omega)
            _ ≤ k := Nat.div_mul_le_self k _
        · rw [hform _ hi]
          dsimp only
          rw [if_pos rfl]
          omega
  · rw [plan_getD_closed h1 h2 h3 (show 0 < n by omega)]
    simp
  · rw [plan_getD_closed h1 h2 h3 (show n - 1 < n by omega)]
    simp

/-- Claim C1, counterexample to the original statement: at
`total_size = 1`, `chunk_count = 8` (admissible under the claim's
`total_size > 0`, `chunk_count ≥ 1`), the planner's property fails: the
`chunk_size = 0` makes every non-final end `0 - 1` wrap to `2^64 - 1`, so
range 0 is `[0, 2^64-1]` and range 7 is `[0, 0]` — not disjoint and not a
partition of `[0, 1)`. -/
theorem planner_claim_cex : ¬ PlanSpec 1 8 := by
  intro h
  exact absurd (h.2.2.2.1 0 7 (by omega) (by omega)) (by decide)

/-- Witness for `plan_partition` at the claim's own example
`total_size = 100003`, `chunk_count = 8`: seven ranges of 12500 bytes and
a final range of 12503 bytes. -/
theorem plan_partition_witness :
    (1 ≤ 8 ∧ 8 ≤ 100003 ∧ 100003 < U64MOD)
    ∧ PlanSpec 100003 8
    ∧ plan 100003 8 =
        [(0, 12499), (12500, 24999), (25000, 37499), (37500, 49999),
         (50000, 62499), (62500, 74999), (75000, 87499), (87500, 100002)] :=
  ⟨by decide,
   plan_partition 100003 8 (by decide) (by decide) (by decide),
   by decide⟩

/-! ### Worker failure handling (claim C2) -/

/-- Claim C2: the code discards every worker join result and
unconditionally finalizes the task as `Completed`.  Evaluated at a run in
which the first worker failed with a transport error: the status written
is `Completed` with `downloaded_bytes = content_length`, never
`Error(reason)`. -/
theorem worker_failure_completed :
    joinAndFinalize [Except.error "connection reset", Except.ok ()]
        [taskC2] 1 100
      = [{ taskC2 with status := DownloadStatus.Completed,
                       downloaded_bytes := 100 }]
    ∧ ∀ reason, DownloadStatus.Completed ≠ DownloadStatus.Error reason :=
  ⟨by decide, fun _ h => DownloadStatus.noConfusion h⟩

/-! ### delete_all (claim C3) -/

/-- Claim C3: `delete_all` leaves the task store empty (true), but because
`registry.clear()` runs before the abort loop iterates the registry, the
loop sees an empty map and aborts nothing — with two live handles
registered, the set of aborted runs is empty, and in the system model the
engine run of a submitted download is still live (still writing) after
`deleteAll`. -/
theorem delete_all_no_abort :
    delete_all [(5, 0), (6, 1)] [taskC3] = ([], [], [], "Nuked")
    ∧ (run clConst [Event.submit "u", Event.engineStart 0,
        Event.deleteAll]).tasks = []
    ∧ (run clConst [Event.submit "u", Event.engineStart 0,
        Event.deleteAll]).live
      = [{ run := 0, taskId := 0, url := "u", started := true }] := by
  refine ⟨by decide, by decide, by decide⟩

/-! ### Multi-stream versus single-stream decision (claim C4) -/

/-- Claim C4: the multi-stream path is taken iff the probed content length
is positive and byte-range support is advertised; otherwise the engine
issues exactly its fallback requests, none of which carries a Range
header; and on the multi-stream path every request carries one. -/
theorem stream_path_decision (url : String) (content_length : Nat)
    (accepts_ranges : Bool) :
    (usesMultiStream content_length accepts_ranges = true ↔
      0 < content_length ∧ accepts_ranges = true)
    ∧ (usesMultiStream content_length accepts_ranges = false →
        ∀ r ∈ engineRequests url content_length accepts_ranges,
          r.range = none)
    ∧ (usesMultiStream content_length accepts_ranges = true →
        ∀ r ∈ engineRequests url content_length accepts_ranges,
          r.range ≠ none) := by
  refine ⟨?_, ?_, ?_⟩
  · simp [usesMultiStream, and_comm]
  · intro h r hr
    rw [engineRequests, h] at hr
    simp only [Bool.false_eq_true, if_false, List.mem_singleton] at hr
    rw [hr]
  · intro h r hr
    rw [engineRequests, h] at hr
    simp only [if_true, List.mem_map] at hr
    obtain ⟨q, _, rfl⟩ := hr
    simp

/-- Witness for `stream_path_decision`: a probe reporting range support
but content length 0 takes the single-stream path and issues no Range
header. -/
theorem stream_path_decision_witness :
    usesMultiStream 0 true = false
    ∧ ∀ r ∈ engineRequests "http://h/f.bin" 0 true, r.range = none :=
  ⟨by decide, (stream_path_decision "http://h/f.bin" 0 true).2.1 (by decide)⟩

/-! ### Reachable-state invariants of the system model -/

lemma updateFirstTask_eq_map (k : Nat) (f : DownloadTask → DownloadTask)
    (l : List DownloadTask) (hnd : (l.map (fun t => t.id)).Nodup) :
    updateFirst (fun t => t.id == k) f l
      = l.map (fun t => if t.id = k then f t else t) :=
  updateFirst_eq_map (fun t => t.id) k f l hnd

lemma map_id_of_cond_update (k : Nat) (f : DownloadTask → DownloadTask)
    (hf : ∀ t, (f t).id = t.id) (l : List DownloadTask) :
    (l.map (fun t => if t.id = k then f t else t)).map (fun t => t.id)
      = l.map (fun t => t.id) := by
  rw [List.map_map]
  apply List.map_congr_left
  intro t _
  simp only [Function.comp_apply]
  split
  · exact hf t
  · rfl

lemma nodup_filter_tasks (p : DownloadTask → Bool) (l : List DownloadTask)
    (h : (l.map (fun t => t.id)).Nodup) :
    ((l.filter p).map (fun t => t.id)).Nodup :=
  h.sublist ((l.filter_sublist).map _)

/-- The task-store clauses of the invariant survive a conditional
per-record update that preserves id, url and total size, provided the
update cannot manufacture an unfull `Completed` record. -/
lemma inv_tasks_cond_update (cl : String → Nat) {s : SysState}
    (h : Inv cl s) (k : Nat) (f : DownloadTask → DownloadTask)
    (hid : ∀ t, (f t).id = t.id)
    (hurl : ∀ t, (f t).url = t.url)
    (hts : ∀ t, (f t).total_size = t.total_size)
    (hcomp : ∀ t ∈ s.tasks, t.id = k →
      (f t).status = DownloadStatus.Completed →
      (f t).total_size = some (cl (f t).url)
        ∧ (f t).downloaded_bytes = cl (f t).url) :
    (∀ t' ∈ s.tasks.map (fun t => if t.id = k then f t else t),
        t'.id < s.nextId)
    ∧ (∀ r ∈ s.live,
        ∀ t' ∈ s.tasks.map (fun t => if t.id = k then f t else t),
        t'.id = r.taskId → t'.url = r.url)
    ∧ (∀ r ∈ s.live, r.started = true →
        ∀ t' ∈ s.tasks.map (fun t => if t.id = k then f t else t),
        t'.id = r.taskId → t'.total_size = some (cl t'.url))
    ∧ (∀ t' ∈ s.tasks.map (fun t => if t.id = k then f t else t),
        t'.status = DownloadStatus.Completed →
        t'.total_size = some (cl t'.url)
          ∧ t'.downloaded_bytes = cl t'.url)
    ∧ ((s.tasks.map (fun t => if t.id = k then f t else t)).map
        (fun t => t.id)).Nodup := by
  refine ⟨?_, ?_, ?_, ?_, ?_⟩
  · intro t' ht'
    obtain ⟨t, ht, rfl⟩ := List.mem_map.mp ht'
    have := h.ids_lt t ht
    split
    · rw [hid]; exact this
    · exact this
  · intro r hr t' ht' hid'
    obtain ⟨t, ht, rfl⟩ := List.mem_map.mp ht'
    by_cases hk : t.id = k
    · rw [if_pos hk] at hid' ⊢
      rw [hurl]
      rw [hid] at hid'
      exact h.run_url r hr t ht hid'
    · rw [if_neg hk] at hid' ⊢
      exact h.run_url r hr t ht hid'
  · intro r hr hst t' ht' hid'
    obtain ⟨t, ht, rfl⟩ := List.mem_map.mp ht'
    by_cases hk : t.id = k
    · rw [if_pos hk] at hid' ⊢
      rw [hts, hurl]
      rw [hid] at hid'
      exact h.started_ts r hr hst t ht hid'
    · rw [if_neg hk] at hid' ⊢
      exact h.started_ts r hr hst t ht hid'
  · intro t' ht' hc
    obtain ⟨t, ht, rfl⟩ := List.mem_map.mp ht'
    by_cases hk : t.id = k
    · rw [if_pos hk] at hc ⊢
      exact hcomp t ht hk hc
    · rw [if_neg hk] at hc ⊢
      exact h.completed_full t ht hc
  · rw [map_id_of_cond_update k f hid]
    exact h.nodup

/-- The invariant survives a step that only shrinks the task store and the
live-run set while not decreasing the freshness counter. -/
lemma inv_of_sub (cl : String → Nat) {s : SysState} (h : Inv cl s)
    {s' : SysState}
    (htasks : ∀ t ∈ s'.tasks, t ∈ s.tasks)
    (hlive : ∀ r ∈ s'.live, r ∈ s.live)
    (hnid : s.nextId ≤ s'.nextId)
    (hnd : (s'.tasks.map (fun t => t.id)).Nodup) : Inv cl s' := by
  constructor
  · intro t ht; exact lt_of_lt_of_le (h.ids_lt t (htasks t ht)) hnid
  · intro r hr; exact lt_of_lt_of_le (h.runs_lt r (hlive r hr)) hnid
  · intro r hr t ht hid; exact h.run_url r (hlive r hr) t (htasks t ht) hid
  · intro r hr hst t ht hid
    exact h.started_ts r (hlive r hr) hst t (htasks t ht) hid
  · intro t ht hc; exact h.completed_full t (htasks t ht) hc
  · exact hnd

/-- The invariant survives a step whose task store is a conditional
update (preserving id, url, size, not faking completion) and whose
live-run set shrinks. -/
lemma inv_update_sub (cl : String → Nat) {s : SysState} (h : Inv cl s)
    (k : Nat) (f : DownloadTask → DownloadTask)
    (hid : ∀ t, (f t).id = t.id)
    (hurl : ∀ t, (f t).url = t.url)
    (hts : ∀ t, (f t).total_size = t.total_size)
    (hcomp : ∀ t ∈ s.tasks, t.id = k →
      (f t).status = DownloadStatus.Completed →
      (f t).total_size = some (cl (f t).url)
        ∧ (f t).downloaded_bytes = cl (f t).url)
    {s' : SysState}
    (htasks : s'.tasks = updateFirst (fun t => t.id == k) f s.tasks)
    (hlive : ∀ r ∈ s'.live, r ∈ s.live)
    (hnid : s.nextId = s'.nextId) : Inv cl s' := by
  obtain ⟨h1, h2, h3, h4, h5⟩ :=
    inv_tasks_cond_update cl h k f hid hurl hts hcomp
  have teq := updateFirstTask_eq_map k f s.tasks h.nodup
  constructor
  · intro t ht
    rw [htasks, teq] at ht
    rw [← hnid]
    exact h1 t ht
  · intro r hr
    rw [← hnid]
    exact h.runs_lt r (hlive r hr)
  · intro r hr t ht hid'
    rw [htasks, teq] at ht
    exact h2 r (hlive r hr) t ht hid'
  · intro r hr hst t ht hid'
    rw [htasks, teq] at ht
    exact h3 r (hlive r hr) hst t ht hid'
  · intro t ht hc
    rw [htasks, teq] at ht
    exact h4 t ht hc
  · rw [htasks, teq]
    exact h5

/-- One-step preservation of the invariant. -/
lemma inv_step (cl : String → Nat) {s : SysState} (h : Inv cl s) :
    ∀ e : Event, Inv cl (applyEvent cl s e) := by
  intro e
  cases e with
  | submit url =>
    simp only [applyEvent]
    constructor
    · intro t ht
      dsimp only at ht ⊢
      rcases List.mem_append.mp ht with ht | ht
      · exact lt_trans (h.ids_lt t ht) (Nat.lt_succ_self _)
      · rw [List.mem_singleton] at ht
        subst ht
        simp only [submitTask]
        exact Nat.lt_succ_self _
    · intro r hr
      dsimp only at hr ⊢
      rcases List.mem_append.mp hr with hr | hr
      · exact lt_trans (h.runs_lt r hr) (Nat.lt_succ_self _)
      · rw [List.mem_singleton] at hr
        subst hr
        simp only [spawnRun]
        exact Nat.lt_succ_self _
    · intro r hr t ht hid
      dsimp only at hr ht hid ⊢
      rcases List.mem_append.mp hr with hr | hr <;>
        rcases List.mem_append.mp ht with ht | ht
      · exact h.run_url r hr t ht hid
      · rw [List.mem_singleton] at ht
        subst ht
        have h2 := h.runs_lt r hr
        simp only [submitTask] at hid
        omega
      · rw [List.mem_singleton] at hr
        subst hr
        have h2 := h.ids_lt t ht
        simp only [spawnRun] at hid
        omega
      · rw [List.mem_singleton] at hr
        rw [List.mem_singleton] at ht
        subst hr
        subst ht
        simp [submitTask, spawnRun]
    · intro r hr hst t ht hid
      dsimp only at hr hst ht hid ⊢
      rcases List.mem_append.mp hr with hr | hr
      · rcases List.mem_append.mp ht with ht | ht
        · exact h.started_ts r hr hst t ht hid
        · rw [List.mem_singleton] at ht
          subst ht
          have h2 := h.runs_lt r hr
          simp only [submitTask] at hid
          omega
      · rw [List.mem_singleton] at hr
        subst hr
        simp [spawnRun] at hst
    · intro t ht hc
      dsimp only at ht hc ⊢
      rcases List.mem_append.mp ht with ht | ht
      · exact h.completed_full t ht hc
      · rw [List.mem_singleton] at ht
        subst ht
        simp [submitTask] at hc
    · dsimp only
      rw [List.map_append]
      refine List.Nodup.append h.nodup (by simp) ?_
      intro a ha hb
      simp only [submitTask, List.map_cons, List.map_nil,
        List.mem_singleton] at hb
      subst hb
      rw [List.mem_map] at ha
      obtain ⟨t, ht, hta⟩ := ha
      have := h.ids_lt t ht
      omega
  | pause id =>
    simp only [applyEvent]
    refine inv_update_sub cl h id
      (fun t => { t with status := DownloadStatus.Paused })
      (fun t => rfl) (fun t => rfl) (fun t => rfl)
      ?_ rfl ?_ rfl
    · intro t ht hk hstat
      simp at hstat
    · intro r hr
      dsimp only at hr
      split at hr
      · exact (List.mem_filter.mp hr).1
      · exact hr
  | resume id =>
    cases hfind : s.tasks.find? (fun t => t.id == id) with
    | none =>
      simp only [applyEvent, hfind]
      exact h
    | some t0 =>
      have ht0mem : t0 ∈ s.tasks := List.mem_of_find?_eq_some hfind
      have ht0id : t0.id = id := by simpa using List.find?_some hfind
      obtain ⟨h1, h2, h3, h4, h5⟩ := inv_tasks_cond_update cl h id
        (fun t2 => { t2 with status := DownloadStatus.Pending })
        (fun t => rfl) (fun t => rfl) (fun t => rfl)
        (by intro t ht hk hstat; simp at hstat)
      have teq := updateFirstTask_eq_map id
        (fun t2 => { t2 with status := DownloadStatus.Pending })
        s.tasks h.nodup
      simp only [applyEvent, hfind]
      constructor
      · intro t ht
        dsimp only at ht ⊢
        rw [teq] at ht
        exact h1 t ht
      · intro r hr
        dsimp only at hr ⊢
        rcases List.mem_append.mp hr with hr | hr
        · exact h.runs_lt r hr
        · rw [List.mem_singleton] at hr
          subst hr
          have h6 := h.ids_lt t0 ht0mem
          simp only [spawnRun]
          omega
      · intro r hr t ht hid
        dsimp only at hr ht hid ⊢
        rw [teq] at ht
        rcases List.mem_append.mp hr with hr | hr
        · exact h2 r hr t ht hid
        · rw [List.mem_singleton] at hr
          subst hr
          simp only [spawnRun] at hid ⊢
          obtain ⟨t1, ht1, rfl⟩ := List.mem_map.mp ht
          have ht1id : t1.id = id := by
            by_cases hk : t1.id = id
            · exact hk
            · rw [if_neg hk] at hid
              exact absurd hid hk
          have heq : t1 = t0 :=
            key_unique h.nodup ht1 ht0mem (by rw [ht1id, ht0id])
          subst heq
          by_cases hk : t1.id = id
          · rw [if_pos hk]
          · rw [if_neg hk]
      · intro r hr hst t ht hid
        dsimp only at hr hst ht hid ⊢
        rw [teq] at ht
        rcases List.mem_append.mp hr with hr | hr
        · exact h3 r hr hst t ht hid
        · rw [List.mem_singleton] at hr
          subst hr
          simp [spawnRun] at hst
      · intro t ht hc
        dsimp only at ht hc ⊢
        rw [teq] at ht
        exact h4 t ht hc
      · dsimp only
        rw [teq]
        exact h5
  | deleteSingle id =>
    simp only [applyEvent]
    refine inv_of_sub cl h ?_ ?_ le_rfl ?_
    · intro t ht
      dsimp only at ht
      exact (List.mem_filter.mp ht).1
    · intro r hr
      dsimp only at hr
      split at hr
      · exact (List.mem_filter.mp hr).1
      · exact hr
    · dsimp only
      exact nodup_filter_tasks _ _ h.nodup
  | deleteCompleted =>
    simp only [applyEvent]
    refine inv_of_sub cl h ?_ ?_ le_rfl ?_
    · intro t ht
      dsimp only at ht
      exact (List.mem_filter.mp ht).1
    · intro r hr
      exact hr
    · dsimp only
      exact nodup_filter_tasks _ _ h.nodup
  | deleteAll =>
    simp only [applyEvent]
    refine inv_of_sub cl h ?_ ?_ le_rfl ?_
    · intro t ht
      simp at ht
    · intro r hr
      exact hr
    · simp
  | engineStart rid =>
    cases hfind : s.live.find? (fun r => r.run == rid) with
    | none =>
      simp only [applyEvent, hfind]
      exact h
    | some r0 =>
      by_cases hst : r0.started = true
      · simp only [applyEvent, hfind]
        rw [if_pos hst]
        exact h
      · have hr0mem : r0 ∈ s.live := List.mem_of_find?_eq_some hfind
        have teq := updateFirstTask_eq_map r0.taskId
          (fun t => { t with status := DownloadStatus.Downloading,
                             total_size := some (cl r0.url),
                             downloaded_bytes := 0,
                             save_path := ff_dir ++ "/" ++ urlFilename r0.url })
          s.tasks h.nodup
        simp only [applyEvent, hfind]
        rw [if_neg hst]
        constructor
        · intro t ht
          dsimp only at ht ⊢
          rw [teq] at ht
          obtain ⟨t1, ht1, rfl⟩ := List.mem_map.mp ht
          have h6 := h.ids_lt t1 ht1
          by_cases hk : t1.id = r0.taskId
          · rw [if_pos hk]; exact h6
          · rw [if_neg hk]; exact h6
        · intro r hr
          dsimp only at hr ⊢
          rcases mem_updateFirst hr with hr | ⟨y, hy, rfl⟩
          · exact h.runs_lt r hr
          · rw [hfind, Option.some.injEq] at hy
            subst hy
            exact h.runs_lt r0 hr0mem
        · intro r hr t ht hid
          dsimp only at hr ht hid ⊢
          rw [teq] at ht
          obtain ⟨t1, ht1, rfl⟩ := List.mem_map.mp ht
          rcases mem_updateFirst hr with hr | ⟨y, hy, rfl⟩
          · by_cases hk : t1.id = r0.taskId
            · rw [if_pos hk] at hid ⊢
              exact h.run_url r hr t1 ht1 hid
            · rw [if_neg hk] at hid ⊢
              exact h.run_url r hr t1 ht1 hid
          · rw [hfind, Option.some.injEq] at hy
            subst hy
            by_cases hk : t1.id = r0.taskId
            · rw [if_pos hk] at hid ⊢
              exact h.run_url r0 hr0mem t1 ht1 hk
            · rw [if_neg hk] at hid ⊢
              exact absurd hid hk
        · intro r hr hst' t ht hid
          dsimp only at hr hst' ht hid ⊢
          rw [teq] at ht
          obtain ⟨t1, ht1, rfl⟩ := List.mem_map.mp ht
          rcases mem_updateFirst hr with hr | ⟨y, hy, rfl⟩
          · by_cases hk : t1.id = r0.taskId
            · rw [if_pos hk] at hid ⊢
              have hu : t1.url = r0.url := h.run_url r0 hr0mem t1 ht1 hk
              show some (cl r0.url) = some (cl t1.url)
              rw [hu]
            · rw [if_neg hk] at hid ⊢
              exact h.started_ts r hr hst' t1 ht1 hid
          · rw [hfind, Option.some.injEq] at hy
            subst hy
            by_cases hk : t1.id = r0.taskId
            · rw [if_pos hk] at hid ⊢
              have hu : t1.url = r0.url := h.run_url r0 hr0mem t1 ht1 hk
              show some (cl r0.url) = some (cl t1.url)
              rw [hu]
            · rw [if_neg hk] at hid ⊢
              exact absurd hid hk
        · intro t ht hc
          dsimp only at ht hc ⊢
          rw [teq] at ht
          obtain ⟨t1, ht1, rfl⟩ := List.mem_map.mp ht
          by_cases hk : t1.id = r0.taskId
          · rw [if_pos hk] at hc ⊢
            have hcc : DownloadStatus.Downloading = DownloadStatus.Completed :=
              hc
            simp at hcc
          · rw [if_neg hk] at hc ⊢
            exact h.completed_full t1 ht1 hc
        · dsimp only
          rw [teq, map_id_of_cond_update r0.taskId
            (fun t => { t with status := DownloadStatus.Downloading,
                               total_size := some (cl r0.url),
                               downloaded_bytes := 0,
                               save_path := ff_dir ++ "/" ++ urlFilename r0.url })
            (fun t => rfl)]
          exact h.nodup
  | engineFinish rid =>
    cases hfind : s.live.find? (fun r => r.run == rid) with
    | none =>
      simp only [applyEvent, hfind]
      exact h
    | some r0 =>
      by_cases hst : r0.started = true
      · have hr0mem : r0 ∈ s.live := List.mem_of_find?_eq_some hfind
        simp only [applyEvent, hfind]
        rw [if_pos hst]
        refine inv_update_sub cl h r0.taskId
          (fun t => { t with status := DownloadStatus.Completed,
                             downloaded_bytes := cl r0.url })
          (fun t => rfl) (fun t => rfl) (fun t => rfl)
          ?_ rfl ?_ rfl
        · intro t ht hk hstat
          have hts := h.started_ts r0 hr0mem hst t ht hk
          have hu := h.run_url r0 hr0mem t ht hk
          refine ⟨hts, ?_⟩
          show cl r0.url = cl t.url
          rw [hu]
        · intro r hr
          dsimp only at hr
          exact (List.mem_filter.mp hr).1
      · simp only [applyEvent, hfind]
        rw [if_neg hst]
        exact h
  | engineAbortEarly rid =>
    simp only [applyEvent]
    refine inv_of_sub cl h ?_ ?_ le_rfl ?_
    · intro t ht
      exact ht
    · intro r hr
      dsimp only at hr
      exact (List.mem_filter.mp hr).1
    · exact h.nodup
  | reporterTick id counter =>
    simp only [applyEvent]
    cases hfind : s.tasks.find? (fun t => t.id == id) with
    | none =>
      simp only [reporterTick, hfind]
      exact h
    | some t0 =>
      have ht0mem : t0 ∈ s.tasks := List.mem_of_find?_eq_some hfind
      have ht0id : t0.id = id := by simpa using List.find?_some hfind
      by_cases hstat : t0.status = DownloadStatus.Downloading
      · refine inv_update_sub cl h id
          (fun t2 => { t2 with downloaded_bytes := counter })
          (fun t => rfl) (fun t => rfl) (fun t => rfl)
          ?_ ?_ (fun r hr => hr) rfl
        · intro t ht hk hstat'
          have heq : t = t0 :=
            key_unique h.nodup ht ht0mem (by rw [hk, ht0id])
          subst heq
          have hcc : t.status = DownloadStatus.Completed := hstat'
          rw [hstat] at hcc
          simp at hcc
        · dsimp only
          simp [reporterTick, hfind, hstat]
      · simp only [reporterTick, hfind]
        rw [if_neg hstat]
        exact h

/-- The invariant holds in the initial state. -/
lemma inv_init (cl : String → Nat) : Inv cl initState := by
  constructor <;> simp [initState]

/-- The invariant is preserved along any event sequence. -/
lemma inv_runFrom (cl : String → Nat) (es : List Event) :
    ∀ {s : SysState}, Inv cl s → Inv cl (runFrom cl s es) := by
  induction es with
  | nil => intro s h; exact h
  | cons e es ih =>
    intro s h
    exact ih (inv_step cl h e)

/-- The invariant holds in every reachable state. -/
lemma inv_run (cl : String → Nat) (es : List Event) : Inv cl (run cl es) :=
  inv_runFrom cl es (inv_init cl)

/-! ### Completed records are full (claim C6) -/

/-- Claim C6: in every reachable state of the system, a task record with
`status = Completed` has `total_size` set and equal to
`downloaded_bytes`.  (Only the engine's final update, engine.rs lines
185-192, writes `Completed`, and the same update writes
`downloaded_bytes = content_length`, while the start update of the same
run, lines 77-87, recorded `total_size = Some(content_length)`.) -/
theorem completed_implies_full (cl : String → Nat) (es : List Event)
    (t : DownloadTask) (ht : t ∈ (run cl es).tasks)
    (hc : t.status = DownloadStatus.Completed) :
    t.total_size = some t.downloaded_bytes := by
  obtain ⟨h1, h2⟩ := (inv_run cl es).completed_full t ht hc
  rw [h1, h2]

/-- Witness for `completed_implies_full`: the record left by a submit /
start / finish trace is `Completed` and full. -/
theorem completed_implies_full_witness :
    (taskC6 ∈ (run clConst [Event.submit "u", Event.engineStart 0,
        Event.engineFinish 0]).tasks
      ∧ taskC6.status = DownloadStatus.Completed)
    ∧ taskC6.total_size = some taskC6.downloaded_bytes :=
  ⟨⟨by decide, by decide⟩,
   completed_implies_full clConst
     [Event.submit "u", Event.engineStart 0, Event.engineFinish 0]
     taskC6 (by decide) (by decide)⟩

/-! ### Resume restarts a fresh run (claim C7) -/

/-- Claim C7: for a task id present in the store, `resume(id)` sets the
record's status to `Pending`, spawns a fresh engine run for the same id
and url, and registers its handle (replacing any previous entry); the new
run's state-start update then resets `downloaded_bytes` to 0 and moves the
status `Pending → Downloading` (recording the probed size and save path).
The freshness hypothesis (`no live run already carries the next run id`)
holds in every reachable state. -/
theorem resume_restarts (cl : String → Nat) (s : SysState) (id : Nat)
    (t : DownloadTask)
    (hfind : s.tasks.find? (fun t2 => t2.id == id) = some t)
    (hfresh : ∀ r ∈ s.live, r.run ≠ s.nextRun) :
    ((applyEvent cl s (Event.resume id)).tasks.find?
        (fun t2 => t2.id == id)
      = some { t with status := DownloadStatus.Pending })
    ∧ ((applyEvent cl s (Event.resume id)).registry.find?
        (fun p => p.1 == id) = some (id, s.nextRun))
    ∧ (spawnRun s.nextRun id t.url ∈ (applyEvent cl s (Event.resume id)).live)
    ∧ ((applyEvent cl (applyEvent cl s (Event.resume id))
          (Event.engineStart s.nextRun)).tasks.find?
        (fun t2 => t2.id == id)
      = some { t with status := DownloadStatus.Downloading,
                      total_size := some (cl t.url),
                      downloaded_bytes := 0,
                      save_path := ff_dir ++ "/" ++ urlFilename t.url })
    ∧ ((applyEvent cl (applyEvent cl s (Event.resume id))
          (Event.engineStart s.nextRun)).live.find?
        (fun r => r.run == s.nextRun)
      = some { run := s.nextRun, taskId := id, url := t.url,
               started := true }) := by
  have hnone2 : s.live.find? (fun r => r.run == s.nextRun) = none := by
    apply List.find?_eq_none.mpr
    intro r hr
    simp [hfresh r hr]
  have hfind2 : (s.live ++ [spawnRun s.nextRun id t.url]).find?
      (fun r => r.run == s.nextRun) = some (spawnRun s.nextRun id t.url) := by
    rw [find?_append_none hnone2]
    simp [spawnRun]
  refine ⟨?_, ?_, ?_, ?_, ?_⟩
  · simp only [applyEvent, hfind]
    rw [find?_updateFirst (fun t2 : DownloadTask => t2.id == id)
      (fun t2 : DownloadTask => { t2 with status := DownloadStatus.Pending })
      (fun x => rfl), hfind]
    rfl
  · simp only [applyEvent, hfind]
    unfold regInsert
    have hnone : (s.registry.filter (fun p => p.1 != id)).find?
        (fun p => p.1 == id) = none := by
      apply List.find?_eq_none.mpr
      intro p hp
      have h2 := (List.mem_filter.mp hp).2
      simp only [bne_iff_ne, ne_eq] at h2
      simp [h2]
    rw [find?_append_none hnone]
    simp
  · simp only [applyEvent, hfind]
    exact List.mem_append.mpr (Or.inr (List.mem_singleton.mpr rfl))
  · simp only [applyEvent, hfind]
    rw [hfind2]
    dsimp only [spawnRun]
    rw [if_neg (by simp)]
    rw [find?_updateFirst (fun t2 : DownloadTask => t2.id == id)
      (fun t2 : DownloadTask =>
        { t2 with status := DownloadStatus.Downloading,
                  total_size := some (cl t.url),
                  downloaded_bytes := 0,
                  save_path := ff_dir ++ "/" ++ urlFilename t.url })
      (fun x => rfl)]
    rw [find?_updateFirst (fun t2 : DownloadTask => t2.id == id)
      (fun t2 : DownloadTask => { t2 with status := DownloadStatus.Pending })
      (fun x => rfl), hfind]
    rfl
  · simp only [applyEvent, hfind]
    rw [hfind2]
    dsimp only [spawnRun]
    rw [if_neg (by simp)]
    rw [find?_updateFirst (fun r2 : EngineRun => r2.run == s.nextRun)
      (fun r2 : EngineRun => { r2 with started := true })
      (fun x => rfl)]
    rw [find?_append_none hnone2]
    simp

/-- Witness for `resume_restarts`: resuming the task submitted by a
single-submit trace. -/
theorem resume_restarts_witness :
    ((run clConst [Event.submit "u"]).tasks.find? (fun t2 => t2.id == 0)
        = some (submitTask 0 "u")
      ∧ (∀ r ∈ (run clConst [Event.submit "u"]).live,
          r.run ≠ (run clConst [Event.submit "u"]).nextRun))
    ∧ (applyEvent clConst (run clConst [Event.submit "u"])
          (Event.resume 0)).tasks.find? (fun t2 => t2.id == 0)
      = some { submitTask 0 "u" with status := DownloadStatus.Pending } :=
  ⟨⟨by decide, by decide⟩,
   (resume_restarts clConst (run clConst [Event.submit "u"]) 0
     (submitTask 0 "u") (by decide) (by decide)).1⟩

/-! ### Registry liveness per id (claim C5) -/

/-- Claim C5: the registry does NOT enforce one live engine run per id.
First trace: submit a url (run 0 starts downloading), then `resume` the
same id — the source's resume has no status check (despite its comment
"Only resume if currently paused or failed"), so it spawns run 1 and
`registry.insert` replaces run 0's handle without aborting it: two engine
runs for task 0 are live at once.  Second trace: a run that completes
never removes itself from the registry (the engine has no access to it),
so after `engineFinish` the task is `Completed` yet its handle `(0, 0)` is
still registered. -/
theorem registry_double_run :
    ((run clConst [Event.submit "u", Event.engineStart 0,
        Event.resume 0]).live.filter (fun r => r.taskId == 0)).length = 2
    ∧ (run clConst [Event.submit "u", Event.engineStart 0,
        Event.engineFinish 0]).registry = [(0, 0)]
    ∧ (run clConst [Event.submit "u", Event.engineStart 0,
        Event.engineFinish 0]).tasks.map (fun t => t.status)
      = [DownloadStatus.Completed] :=
  ⟨by decide, by decide, by decide⟩

/-! ### Record filename (claim C8) -/

/-- Claim C8: `add_download` sets the record's `filename` to the literal
placeholder "Pending..." (main.rs line 194) and no code ever updates it;
the engine derives the URL's last path segment (engine.rs line 49) only
for the on-disk path, which surfaces in `save_path`.  After a full
successful run for a URL ending in "file.bin" the record's filename is
still "Pending...", not the URL tail. -/
theorem filename_placeholder :
    (run clConst [Event.submit "http://host/dir/file.bin",
        Event.engineStart 0, Event.engineFinish 0]).tasks.map
      (fun t => t.filename) = ["Pending..."]
    ∧ urlFilename "http://host/dir/file.bin" = "file.bin"
    ∧ (run clConst [Event.submit "http://host/dir/file.bin",
        Event.engineStart 0, Event.engineFinish 0]).tasks.map
      (fun t => t.save_path) = ["Downloads/FF/file.bin"] :=
  ⟨by decide, by decide, by decide⟩

/-! ### Reporter tick (claim C9) -/

/-- Claim C9, counterexample to "if the record has been deleted, the
reporter stops itself": with the record absent from the store, the tick's
`if let` finds nothing, so the `break` is never reached — the tick mutates
nothing but reports that the loop continues (`true`), not that it
stops. -/
theorem reporter_deleted_keeps_running :
    reporterTick ([] : List DownloadTask) 0 5 = ([], true) := by decide

/-- Claim C9 (amended): on every tick the reporter never changes any
record's status; when the record is present and still `Downloading` it
copies the shared counter into `downloaded_bytes` and continues; when the
record is present with any other status it stops itself without mutating
the store; when the record has been deleted it keeps looping without
mutating anything (it does not stop). -/
theorem reporter_tick_behavior (tasks : List DownloadTask)
    (id current : Nat) :
    ((reporterTick tasks id current).1.map (fun t => t.status)
      = tasks.map (fun t => t.status))
    ∧ (∀ t, tasks.find? (fun t2 => t2.id == id) = some t →
        (t.status = DownloadStatus.Downloading →
          (reporterTick tasks id current).2 = true
          ∧ (reporterTick tasks id current).1
            = updateFirst (fun t2 => t2.id == id)
                (fun t2 => { t2 with downloaded_bytes := current }) tasks)
        ∧ (t.status ≠ DownloadStatus.Downloading →
          reporterTick tasks id current = (tasks, false)))
    ∧ (tasks.find? (fun t2 => t2.id == id) = none →
        reporterTick tasks id current = (tasks, true)) := by
  unfold reporterTick
  cases hfind : tasks.find? (fun t2 => t2.id == id) with
  | none =>
    refine ⟨rfl, ?_, fun _ => rfl⟩
    intro t ht
    exact absurd ht (by simp)
  | some t0 =>
    dsimp only
    by_cases hstat : t0.status = DownloadStatus.Downloading
    · rw [if_pos hstat]
      refine ⟨?_, ?_, ?_⟩
      · exact map_updateFirst (fun t2 => t2.id == id)
          (fun t2 => { t2 with downloaded_bytes := current })
          (fun t => t.status) (fun x => rfl) tasks
      · intro t ht
        rw [Option.some.injEq] at ht
        subst ht
        exact ⟨fun _ => ⟨rfl, rfl⟩, fun hne => absurd hstat hne⟩
      · intro h; exact absurd h (by simp)
    · rw [if_neg hstat]
      refine ⟨rfl, ?_, ?_⟩
      · intro t ht
        rw [Option.some.injEq] at ht
        subst ht
        exact ⟨fun hd => absurd hd hstat, fun _ => rfl⟩
      · intro h; exact absurd h (by simp)

/-- Witness for `reporter_tick_behavior`: a tick against a store holding
the downloading record copies the counter and continues. -/
theorem reporter_tick_behavior_witness :
    ([taskC9].find? (fun t2 => t2.id == 3) = some taskC9
      ∧ taskC9.status = DownloadStatus.Downloading)
    ∧ (reporterTick [taskC9] 3 7).2 = true
    ∧ (reporterTick [taskC9] 3 7).1
      = updateFirst (fun t2 => t2.id == 3)
          (fun t2 => { t2 with downloaded_bytes := 7 }) [taskC9] :=
  ⟨⟨by decide, by decide⟩,
   ((reporter_tick_behavior [taskC9] 3 7).2.1 taskC9 (by decide)).1
     (by decide)⟩

/-! ### Pause endpoint (claim C10) -/

/-- Claim C10: `pause_download` answers "Paused" unconditionally; if a
record with the id exists it is set to `Paused` regardless of its current
status (Completed, Error, or without any live run); records with other
ids are untouched; and when no record or registry entry exists it still
succeeds, leaving the store unchanged. -/
theorem pause_unconditional (id : Nat) (registry : List (Nat × Nat))
    (tasks : List DownloadTask) :
    (pause_download id registry tasks).2.2.2 = "Paused"
    ∧ (∀ t, tasks.find? (fun t2 => t2.id == id) = some t →
        (pause_download id registry tasks).2.2.1.find?
            (fun t2 => t2.id == id)
          = some { t with status := DownloadStatus.Paused })
    ∧ (∀ t ∈ tasks, t.id ≠ id →
        t ∈ (pause_download id registry tasks).2.2.1)
    ∧ (pause_download id registry tasks).2.2.1.length = tasks.length
    ∧ (tasks.find? (fun t2 => t2.id == id) = none →
        (pause_download id registry tasks).2.2.1 = tasks) := by
  unfold pause_download
  dsimp only
  refine ⟨rfl, ?_, ?_, ?_, ?_⟩
  · intro t ht
    rw [find?_updateFirst (fun t2 : DownloadTask => t2.id == id)
      (fun t2 : DownloadTask => { t2 with status := DownloadStatus.Paused })
      (fun x => rfl), ht]
    rfl
  · intro t ht hne
    exact mem_updateFirst_of_not (by simp [hne]) ht
  · exact length_updateFirst _ _ tasks
  · intro h
    exact updateFirst_of_find?_none _ h

/-- Witness for `pause_unconditional`: pausing a `Completed` task flips it
to `Paused` and still answers "Paused". -/
theorem pause_unconditional_witness :
    ([taskC10].find? (fun t2 => t2.id == 7) = some taskC10)
    ∧ (pause_download 7 [(7, 0)] [taskC10]).2.2.1.find?
        (fun t2 => t2.id == 7)
      = some { taskC10 with status := DownloadStatus.Paused }
    ∧ (pause_download 7 [(7, 0)] [taskC10]).2.2.2 = "Paused" :=
  ⟨by decide,
   (pause_unconditional 7 [(7, 0)] [taskC10]).2.1 taskC10 (by decide),
   (pause_unconditional 7 [(7, 0)] [taskC10]).1⟩

end FerrisFetcher
